import Mathlib

/-!
Verification development for the Wikipedia life-events extraction pipeline
(`detailed_life_events.py`).  The pure logic of the script is embedded as
executable Lean definitions: text cleaning, section extraction, infobox
extraction, per-person fetch handling, the orchestrator's accumulate /
checkpoint loop, and the final row expansion.  Texts are modelled as
`List Char` (ASCII fragment of Python `str`), HTML documents as flat lists
of sibling elements, and the network boundary as an explicit outcome datum.
-/

/-- Whitespace characters recognised by Python's regex class `\s`
(ASCII fragment: space, tab, newline, carriage return, vertical tab, form feed). -/
def isSpace (c : Char) : Bool :=
  c.toNat == 32 || c.toNat == 9 || c.toNat == 10 || c.toNat == 13 ||
  c.toNat == 11 || c.toNat == 12

/-- One left-to-right pass removing non-overlapping citation markers
`[digits]`, as performed by `re.sub(r'\[\d+\]', '', text)`.  The second
argument is `none` when scanning outside a potential marker and
`some pending` when a `'['` has been read followed by the digits `pending`
(reversed); an aborted potential marker is emitted literally, exactly as
the regex engine leaves unmatched text in place. -/
def rcAux : List Char → Option (List Char) → List Char
  | [], none => []
  | [], some pend => '[' :: pend.reverse
  | c :: rest, none =>
    if c = '[' then rcAux rest (some [])
    else c :: rcAux rest none
  | c :: rest, some pend =>
    if c.isDigit then rcAux rest (some (c :: pend))
    else if c = ']' ∧ pend ≠ [] then rcAux rest none
    else if c = '[' then ('[' :: pend.reverse) ++ rcAux rest (some [])
    else ('[' :: pend.reverse) ++ (c :: rcAux rest none)

/-- Run of `re.sub(r'\[\d+\]', '', text)`: remove citation markers. -/
def removeCitations (l : List Char) : List Char := rcAux l none

/-- Embedding of `re.sub(r'\s+', ' ', text)`: replace every maximal whitespace run by a
single space.  The flag records whether we are inside a run whose single
space has already been emitted. -/
def collapseWs : List Char → Bool → List Char
  | [], _ => []
  | c :: rest, prev =>
    if isSpace c then
      if prev then collapseWs rest true
      else ' ' :: collapseWs rest true
    else c :: collapseWs rest false

/-- Python `str.strip()`: drop leading and trailing whitespace. -/
def stripEnds (l : List Char) : List Char :=
  ((l.dropWhile isSpace).reverse.dropWhile isSpace).reverse

/-- Embedding of `WikipediaScraper.clean_text`: empty/falsy input yields `""`; otherwise
remove citation markers, collapse whitespace runs, strip, and truncate to
2000 characters. -/
def clean_text (t : List Char) : List Char :=
  if t.isEmpty then []
  else (stripEnds (collapseWs (removeCitations t) false)).take 2000

/-- Does the list begin with a citation marker `'['`, one or more digits,
`']'`?  (Spec-side notion of a citation-marker substring.) -/
def citationHead : List Char → Bool
  | '[' :: rest =>
    match rest.dropWhile Char.isDigit with
    | ']' :: _ => !(rest.takeWhile Char.isDigit).isEmpty
    | _ => false
  | _ => false

/-- Does the list contain a citation-marker substring `[digits]` anywhere? -/
def containsCitation : List Char → Bool
  | [] => false
  | c :: rest => citationHead (c :: rest) || containsCitation rest

/-- Does `pat` occur at the very start of the second list? -/
def listStartsWith : List Char → List Char → Bool
  | [], _ => true
  | _ :: _, [] => false
  | p :: ps, c :: cs => p = c && listStartsWith ps cs

/-- Python substring containment `pat in l`. -/
def hasSubstring (pat : List Char) : List Char → Bool
  | [] => listStartsWith pat []
  | c :: rest => listStartsWith pat (c :: rest) || hasSubstring pat rest

/-- One element of the parsed document: an HTML tag name together with its
`get_text()` content.  The document body is modelled as the flat list of
section-level sibling elements, the part of the tree the extractor walks. -/
structure Element where
  tag : String
  text : List Char
deriving DecidableEq

/-- A categorised narrative section: `{'type': ..., 'content': ...}`. -/
structure LifeEvent where
  type : String
  content : List Char
deriving DecidableEq

/-- The fixed ordered category table of `extract_events` (keywords lowercase). -/
def sections : List (String × List (List Char)) :=
  [("Early Life", ["early life".data, "childhood".data, "education".data]),
   ("Career", ["career".data, "professional".data, "work".data]),
   ("Achievements", ["achievements".data, "awards".data, "honors".data]),
   ("Personal Life", ["personal life".data, "relationships".data, "family".data]),
   ("Later Years", ["later years".data, "retirement".data, "death".data])]

/-- Embedding of the heading search
`soup.find(lambda tag: tag.name in ['h2','h3'] and keyword in tag.get_text().lower())`:
first section-level heading whose lowercased text contains the keyword; the
result is the list of its following siblings (`find_next_siblings`). -/
def findHeadingSuffix (kw : List Char) : List Element → Option (List Element)
  | [] => none
  | e :: rest =>
    if (e.tag = "h2" ∨ e.tag = "h3") ∧ hasSubstring kw (e.text.map Char.toLower) then
      some rest
    else findHeadingSuffix kw rest

/-- Walk the siblings after a matched heading: stop at the next `h2`/`h3`,
collect each non-empty cleaned paragraph text. -/
def collectContent : List Element → List (List Char)
  | [] => []
  | e :: rest =>
    if e.tag = "h2" ∨ e.tag = "h3" then []
    else if e.tag = "p" then
      let t := clean_text e.text
      if t.isEmpty then collectContent rest else t :: collectContent rest
    else collectContent rest

/-- The keyword loop of one category: the first keyword that finds a heading
wins and the loop breaks there (regardless of whether content is found). -/
def firstMatch (doc : List Element) : List (List Char) → Option (List Element)
  | [] => none
  | kw :: kws =>
    match findHeadingSuffix kw doc with
    | some rest => some rest
    | none => firstMatch doc kws

/-- The body of `extract_events` for a single category: find the first
heading matched by any keyword; if found and the collected cleaned content
is non-empty, emit one event whose content is the newline-join truncated to
3000 characters. -/
def categoryEvent (doc : List Element) (name : String) (kws : List (List Char)) :
    Option LifeEvent :=
  match firstMatch doc kws with
  | none => none
  | some rest =>
    if (collectContent rest).isEmpty then none
    else some { type := name
                content := (List.intercalate ['\n'] (collectContent rest)).take 3000 }

/-- Embedding of `WikipediaScraper.extract_events`: one pass over the fixed category
table, appending at most one event per category, in table order. -/
def extract_events (doc : List Element) : List LifeEvent :=
  sections.filterMap (fun s => categoryEvent doc s.1 s.2)

/-- One `tr` of the infobox table: its first `th` / `td` cell text, when a
truthy such cell exists. -/
structure TableRow where
  th : Option (List Char)
  td : Option (List Char)
deriving DecidableEq

/-- Python-dict insertion preserving first-insertion order: an existing key
has its value overwritten in place, a fresh key is appended. -/
def insertDict (d : List (List Char × List Char)) (k v : List Char) :
    List (List Char × List Char) :=
  if d.any (fun p => decide (p.1 = k)) then
    d.map (fun p => if p.1 = k then (k, v) else p)
  else d ++ [(k, v)]

/-- The body of the infobox row loop for one `tr`: when both a header and a
data cell are present and both cleaned texts are non-empty, the cleaned
`(header, data)` pair is produced for insertion; otherwise the row is
skipped. -/
def rowPair (row : TableRow) : Option (List Char × List Char) :=
  match row.th, row.td with
  | some th, some td =>
    if clean_text th ≠ [] ∧ clean_text td ≠ [] then
      some (clean_text th, clean_text td)
    else none
  | _, _ => none

/-- The infobox row loop step: insert the qualifying row's cleaned pair, or
leave the mapping unchanged. -/
def infoboxStep (acc : List (List Char × List Char)) (row : TableRow) :
    List (List Char × List Char) :=
  match rowPair row with
  | some kv => insertDict acc kv.1 kv.2
  | none => acc

/-- Infobox extraction: `soup.find('table', {'class': 'infobox'})` keeps only
the first infobox table; its absence yields the empty mapping. -/
def extractInfobox : List (List TableRow) → List (List Char × List Char)
  | [] => []
  | t :: _ => t.foldl infoboxStep []

/-- The qualifying rows of one table, as cleaned `(header, data)` pairs, in
row order (the sequence of insertions the row loop performs). -/
def panelPairs (t : List TableRow) : List (List Char × List Char) :=
  t.filterMap rowPair

/-- Ordered-dict lookup: value of the unique pair with the given key. -/
def lookupD (d : List (List Char × List Char)) (k : List Char) : Option (List Char) :=
  (d.find? (fun p => decide (p.1 = k))).map (fun p => p.2)

/-- The parsed document handed to the extractor: its flat body (headings,
paragraphs and other siblings) and the `tr`-row lists of the tables carrying
the `infobox` class, in document order. -/
structure Soup where
  body : List Element
  infoboxes : List (List TableRow)
deriving DecidableEq

/-- The per-person data object returned by `get_person_data`: either the
error dictionary `{'error': msg}` or the success dictionary with summary,
infobox, events and url. -/
inductive PersonData where
  | failure (error : String)
  | success (summary : List Char) (infobox : List (List Char × List Char))
            (events : List LifeEvent) (url : String)
deriving DecidableEq

/-- Accessor `data.get('summary', '')`. -/
def summaryOf : PersonData → List Char
  | .failure _ => []
  | .success s _ _ _ => s

/-- Accessor `data.get('error', '')`. -/
def errorOf : PersonData → String
  | .failure e => e
  | .success _ _ _ _ => ""

/-- Accessor `data.get('url', '')`. -/
def urlOf : PersonData → String
  | .failure _ => ""
  | .success _ _ _ u => u

/-- Accessor `data.get('infobox', ...)` (empty mapping default). -/
def infoboxOf : PersonData → List (List Char × List Char)
  | .failure _ => []
  | .success _ ib _ _ => ib

/-- Accessor `data.get('events', [])`. -/
def eventsOf : PersonData → List LifeEvent
  | .failure _ => []
  | .success _ _ es _ => es

/-- What the network did for one person, as data: a fault raised while
resolving the wiki page, a resolved page that does not exist, a fault raised
while fetching the HTML, or a successful fetch of summary plus parsed
document.  (Faults carry the exception's message string `str(e)`.) -/
inductive FetchOutcome where
  | resolveFault (msg : String)
  | notFound
  | fetchFault (msg : String)
  | ok (summary : List Char) (soup : Soup)
deriving DecidableEq

/-- Embedding of `name.replace(' ', '_')`: the resolved page identifier. -/
def resolveName (name : String) : String :=
  String.mk (name.data.map (fun c => if c = ' ' then '_' else c))

/-- The page URL template. -/
def wikiUrl (name : String) : String :=
  "https://en.wikipedia.org/wiki/" ++ resolveName name

/-- Embedding of `WikipediaScraper.get_person_data`: the whole body sits in a
`try/except Exception` block, so every outcome — including both fault kinds —
is returned as a dictionary value and no exception escapes; a non-existing
page returns `{'error': 'Page not found'}` from inside the `try`. -/
def get_person_data (name : String) : FetchOutcome → PersonData
  | .resolveFault msg => .failure msg
  | .notFound => .failure "Page not found"
  | .fetchFault msg => .failure msg
  | .ok summary soup =>
    .success (summary.take 3000) (extractInfobox soup.infoboxes)
      (extract_events soup.body) (wikiUrl name)

/-- One roster record (`person.get(..., '')` applied upstream). -/
structure PersonInput where
  name : String
  gender : String
  day : String
  month : String
  year : String
  time : String
  location : String
  latitude : String
  longitude : String
  timeZone : String
deriving DecidableEq

/-- The non-event fields of a per-person result dictionary (everything
`process_person` stores except the `'Events'` key). -/
structure BaseFields where
  name : String
  gender : String
  birthDate : String
  birthTime : String
  birthLocation : String
  latitude : String
  longitude : String
  timeZone : String
  url : String
  summary : List Char
  error : String
  infobox : List (List Char × List Char)
deriving DecidableEq

/-- A per-person result: base fields plus the `'Events'` list. -/
structure ResultRecord where
  base : BaseFields
  events : List LifeEvent
deriving DecidableEq

/-- Embedding of `process_person` applied to already-fetched data: build the result
dictionary from the roster record and the scraper's data object. -/
def process_person (p : PersonInput) (data : PersonData) : ResultRecord :=
  { base :=
    { name := p.name
      gender := p.gender
      birthDate := p.day ++ "/" ++ p.month ++ "/" ++ p.year
      birthTime := p.time
      birthLocation := p.location
      latitude := p.latitude
      longitude := p.longitude
      timeZone := p.timeZone
      url := urlOf data
      summary := summaryOf data
      error := errorOf data
      infobox := infoboxOf data }
    events := eventsOf data }

/-- One row of the final table: the copied base fields and, when set, the
`Event_Type` / `Event_Details` pair. -/
structure OutputRow where
  base : BaseFields
  event : Option (String × List Char)
deriving DecidableEq

/-- The per-person branch of the expansion loop: a truthy (non-empty) event
list yields one row per event with the base fields copied; otherwise the
single base row is emitted, with no event fields. -/
def personRows (r : ResultRecord) : List OutputRow :=
  match r.events with
  | [] => [{ base := r.base, event := none }]
  | es => es.map (fun e => { base := r.base, event := some (e.type, e.content) })

/-- The row expander: expand every collected result, in list order. -/
def expandEvents (results : List ResultRecord) : List OutputRow :=
  results.flatMap personRows

/-- What one scheduled task delivers to the orchestrator: its result, or a
fault escaping the per-person containment (raised out of `future.result()`). -/
inductive TaskOutcome where
  | ok (r : ResultRecord)
  | fault (msg : String)
deriving DecidableEq

/-- Projection: `some r` for a delivered result, `none` for an escaping fault. -/
def okOf : TaskOutcome → Option ResultRecord
  | .ok r => some r
  | .fault _ => none

/-- The orchestrator's state: the shared result list and the sequence of
checkpoint snapshots written so far. -/
structure LoopState where
  results : List ResultRecord
  checkpoints : List (List ResultRecord)
deriving DecidableEq

/-- One iteration of the consumption loop: a fault is logged and contributes
nothing; a result is appended and, when the accumulated count is a multiple
of 25, the entire current result list is written as a snapshot. -/
def stepLoop (st : LoopState) (o : TaskOutcome) : LoopState :=
  match o with
  | .fault _ => st
  | .ok r =>
    let results := st.results ++ [r]
    { results := results
      checkpoints :=
        if results.length % 25 = 0 then st.checkpoints ++ [results]
        else st.checkpoints }

/-- The whole consumption loop over the tasks' outcomes in completion order. -/
def runLoop (outcomes : List TaskOutcome) : LoopState :=
  outcomes.foldl stepLoop { results := [], checkpoints := [] }

/-- A two-sibling document whose single heading matches keywords of two
different categories ("early life" and "career"). -/
def exDocC1 : List Element :=
  [{ tag := "h2", text := "Early life and career".data },
   { tag := "p", text := "x".data }]

/-- A sample set of base fields. -/
def exBase : BaseFields :=
  { name := "N", gender := "G", birthDate := "1/2/3", birthTime := "T"
    birthLocation := "L", latitude := "La", longitude := "Lo", timeZone := "TZ"
    url := "", summary := [], error := "", infobox := [] }

/-- A sample delivered result carrying two events. -/
def exRec2 : ResultRecord :=
  { base := exBase
    events := [{ type := "Early Life", content := ['a'] },
               { type := "Career", content := ['b'] }] }

/-- A sample roster record. -/
def exInput : PersonInput :=
  { name := "Ada Lovelace", gender := "F", day := "10", month := "12"
    year := "1815", time := "t", location := "London", latitude := "la"
    longitude := "lo", timeZone := "tz" }

/-- A sample infobox table with a duplicated cleaned label: the first row's
header cleans to `Born` (citation marker removed), colliding with the
second row's header. -/
def exTableDup : List TableRow :=
  [{ th := some "Born[1]".data, td := some " 1815 ".data },
   { th := some "Born".data, td := some "1816".data }]

/-- In a nodup list, at most one element equals any given key. -/
theorem countP_key_le_one {α : Type} [DecidableEq α] {l : List α} (h : l.Nodup) (c : α) :
    l.countP (fun t => decide (t = c)) ≤ 1 := by
  induction l with
  | nil => simp
  | cons a l ih =>
    rw [List.countP_cons]
    rcases List.nodup_cons.mp h with ⟨hal, hl⟩
    by_cases hac : a = c
    · subst hac
      have h0 : l.countP (fun t => decide (t = a)) = 0 :=
        List.countP_eq_zero.mpr (fun x hx hxa => hal ((of_decide_eq_true hxa) ▸ hx))
      simp [h0]
    · simpa [hac] using ih hl

/-- A successful `categoryEvent` labels its event with the category name. -/
theorem categoryEvent_type {doc : List Element} {n : String} {kws : List (List Char)}
    {e : LifeEvent} (h : categoryEvent doc n kws = some e) : e.type = n := by
  unfold categoryEvent at h
  split at h
  · exact absurd h (by simp)
  · split at h
    · exact absurd h (by simp)
    · injection h with h
      rw [← h]

/-- A successful `categoryEvent` truncates its content to 3000 characters. -/
theorem categoryEvent_content_le {doc : List Element} {n : String} {kws : List (List Char)}
    {e : LifeEvent} (h : categoryEvent doc n kws = some e) : e.content.length ≤ 3000 := by
  unfold categoryEvent at h
  split at h
  · exact absurd h (by simp)
  · split at h
    · exact absurd h (by simp)
    · injection h with h
      rw [← h]
      simp [Nat.min_le_left]

/-- The category labels of the extracted events form a sublist of the fixed
category-name list. -/
theorem extract_events_types_sublist (doc : List Element) :
    ((extract_events doc).map (fun e => e.type)).Sublist (sections.map (fun s => s.1)) := by
  unfold extract_events
  induction sections with
  | nil => simp
  | cons s ss ih =>
    rw [List.filterMap_cons]
    cases h : categoryEvent doc s.1 s.2 with
    | none => simpa using ih.cons s.1
    | some e =>
      simp only [List.map_cons]
      rw [categoryEvent_type h]
      exact ih.cons₂ s.1

/-- C7: for every input document, the section extractor emits at most one
LifeEvent per category and at most 5 LifeEvents per person in total. -/
theorem claim_C7 (doc : List Element) (c : String) :
    (extract_events doc).length ≤ 5 ∧
    ((extract_events doc).map (fun e => e.type)).countP (fun t => decide (t = c)) ≤ 1 := by
  constructor
  · unfold extract_events
    exact le_trans (List.length_filterMap_le _ _) (by decide)
  · have hsub := extract_events_types_sublist doc
    have hnd : (sections.map (fun s => s.1)).Nodup := by decide
    exact le_trans (hsub.countP_le _) (countP_key_le_one hnd c)

/-- C1 counterexample: on a document whose single heading "Early life and
career" matches keywords of both the "Early Life" and the "Career" category,
`extract_events` emits an event under BOTH categories — the later category is
not suppressed, contradicting the claim's "never both". -/
theorem claim_C1_counterexample :
    (extract_events exDocC1).map (fun e => e.type) = ["Early Life", "Career"] ∧
    (extract_events exDocC1).countP (fun e => decide (e.type = "Early Life")) = 1 ∧
    (extract_events exDocC1).countP (fun e => decide (e.type = "Career")) = 1 := by
  decide

/-- C1 amended: category attribution is independent per category; whenever
two categories each produce an event (in particular from one shared heading),
both events are emitted — one under each category, in enumeration order, with
no de-duplication. -/
theorem claim_C1_amended (doc : List Element) (c₁ c₂ : String × List (List Char))
    (e₁ e₂ : LifeEvent) (h₁ : c₁ ∈ sections) (h₂ : c₂ ∈ sections)
    (he₁ : categoryEvent doc c₁.1 c₁.2 = some e₁)
    (he₂ : categoryEvent doc c₂.1 c₂.2 = some e₂) :
    e₁ ∈ extract_events doc ∧ e₂ ∈ extract_events doc :=
  ⟨List.mem_filterMap.mpr ⟨c₁, h₁, he₁⟩, List.mem_filterMap.mpr ⟨c₂, h₂, he₂⟩⟩

/-- C1 witness: the amended theorem applied to the two-category document. -/
theorem claim_C1_witness :
    ({ type := "Early Life", content := "x".data } : LifeEvent) ∈ extract_events exDocC1 ∧
    ({ type := "Career", content := "x".data } : LifeEvent) ∈ extract_events exDocC1 :=
  claim_C1_amended exDocC1
    ("Early Life", ["early life".data, "childhood".data, "education".data])
    ("Career", ["career".data, "professional".data, "work".data])
    { type := "Early Life", content := "x".data }
    { type := "Career", content := "x".data }
    (by decide) (by decide) (by decide) (by decide)

/-- Every row the expansion emits for one result carries that result's base
fields unchanged. -/
theorem personRows_base {r : ResultRecord} {row : OutputRow}
    (h : row ∈ personRows r) : row.base = r.base := by
  unfold personRows at h
  split at h
  · rw [List.mem_singleton.mp h]
  · rcases List.mem_map.mp h with ⟨e, _, rfl⟩
    rfl

/-- C2: for a Success with k events the row expander emits exactly max(k,1)
rows — one per event, identical on every non-event field and differing only
in the event fields; for zero events, and for a Failure, exactly one row is
emitted with the event fields unset. -/
theorem claim_C2 :
    (∀ (p : PersonInput) (s : List Char) (ib : List (List Char × List Char))
       (es : List LifeEvent) (u : String),
      (expandEvents [process_person p (.success s ib es u)]).length = max es.length 1 ∧
      (∀ row ∈ expandEvents [process_person p (.success s ib es u)],
        row.base = (process_person p (.success s ib es u)).base) ∧
      (es ≠ [] →
        (expandEvents [process_person p (.success s ib es u)]).map (fun row => row.event)
          = es.map (fun e => some (e.type, e.content))) ∧
      (es = [] →
        expandEvents [process_person p (.success s ib es u)]
          = [{ base := (process_person p (.success s ib es u)).base, event := none }])) ∧
    (∀ (p : PersonInput) (msg : String),
      expandEvents [process_person p (.failure msg)]
        = [{ base := (process_person p (.failure msg)).base, event := none }]) := by
  constructor
  · intro p s ib es u
    have hev : (process_person p (.success s ib es u)).events = es := rfl
    have hexp : expandEvents [process_person p (.success s ib es u)]
        = personRows (process_person p (.success s ib es u)) := by
      simp [expandEvents]
    refine ⟨?_, ?_, ?_, ?_⟩
    · rw [hexp]
      unfold personRows
      rw [hev]
      cases es with
      | nil => simp
      | cons e es' => simp [Nat.max_eq_left (Nat.succ_le_succ (Nat.zero_le _))]
    · intro row hrow
      exact personRows_base (hexp ▸ hrow)
    · intro hne
      rw [hexp]
      unfold personRows
      rw [hev]
      cases es with
      | nil => exact absurd rfl hne
      | cons e es' => simp
    · intro h0
      rw [hexp]
      unfold personRows
      rw [hev, h0]
  · intro p msg
    simp [expandEvents]
    unfold personRows
    rfl

/-- C2 witness: a success with two events yields two rows whose event fields
enumerate the two events. -/
theorem claim_C2_witness :
    (expandEvents [process_person exInput
        (.success [] [] [{ type := "Early Life", content := ['a'] },
                         { type := "Career", content := ['b'] }] "u")]).length = max 2 1 ∧
    (expandEvents [process_person exInput
        (.success [] [] [{ type := "Early Life", content := ['a'] },
                         { type := "Career", content := ['b'] }] "u")]).map (fun row => row.event)
      = [some ("Early Life", ['a']), some ("Career", ['b'])] :=
  ⟨(claim_C2.1 exInput [] []
      [{ type := "Early Life", content := ['a'] }, { type := "Career", content := ['b'] }] "u").1,
   (claim_C2.1 exInput [] []
      [{ type := "Early Life", content := ['a'] }, { type := "Career", content := ['b'] }] "u").2.2.1
     (by decide)⟩

/-- C3: the per-person fetch is total over every modelled outcome — a missing
page yields exactly `Failure "Page not found"`, and a network fault raised at
either call site yields a Failure carrying the fault's message; every outcome
yields exactly one result value (the embedding of the enclosing
`try/except Exception` block, which lets no exception escape). -/
theorem claim_C3 (name : String) (msg : String) :
    get_person_data name .notFound = .failure "Page not found" ∧
    get_person_data name (.fetchFault msg) = .failure msg ∧
    get_person_data name (.resolveFault msg) = .failure msg ∧
    (∀ o : FetchOutcome, ∃! r : PersonData, get_person_data name o = r) :=
  ⟨rfl, rfl, rfl, fun o => ⟨get_person_data name o, rfl, fun _ h => h.symm⟩⟩

/-- C9: the stored summary is exactly the first 3000 characters of the raw
source summary, with no cleaning applied; in particular a raw summary of at
most 3000 characters is stored verbatim, citation markers and consecutive
whitespace included. -/
theorem claim_C9 :
    (∀ (name : String) (s : List Char) (soup : Soup),
      summaryOf (get_person_data name (.ok s soup)) = s.take 3000) ∧
    (∀ (name : String) (s : List Char) (soup : Soup), s.length ≤ 3000 →
      summaryOf (get_person_data name (.ok s soup)) = s) := by
  refine ⟨fun name s soup => rfl, fun name s soup h => ?_⟩
  show s.take 3000 = s
  exact List.take_of_length_le h

/-- C9 witness: a raw summary containing a double space and a citation
marker is stored verbatim. -/
theorem claim_C9_witness :
    summaryOf (get_person_data "A" (.ok "a  [1] b".data { body := [], infoboxes := [] }))
      = "a  [1] b".data ∧
    containsCitation "a  [1] b".data = true :=
  ⟨claim_C9.2 "A" "a  [1] b".data { body := [], infoboxes := [] } (by decide), by decide⟩

/-- Loop invariant of the orchestrator: at every point, the checkpoints
written so far are exactly the 25·(i+1)-length takes of the current result
list, one for each full block of 25 accumulated results. -/
theorem stepLoop_cps (st : LoopState) (o : TaskOutcome)
    (h : st.checkpoints = (List.range (st.results.length / 25)).map
        (fun i => st.results.take (25 * (i + 1)))) :
    (stepLoop st o).checkpoints = (List.range ((stepLoop st o).results.length / 25)).map
        (fun i => (stepLoop st o).results.take (25 * (i + 1))) := by
  cases o with
  | fault m => exact h
  | ok r =>
    show (if (st.results ++ [r]).length % 25 = 0
          then st.checkpoints ++ [st.results ++ [r]] else st.checkpoints)
        = (List.range ((st.results ++ [r]).length / 25)).map
            (fun i => (st.results ++ [r]).take (25 * (i + 1)))
    have hlen : (st.results ++ [r]).length = st.results.length + 1 := by simp
    by_cases hmod : (st.results ++ [r]).length % 25 = 0
    · rw [if_pos hmod]
      rw [hlen] at hmod
      rw [hlen]
      have hdiv : (st.results.length + 1) / 25 = st.results.length / 25 + 1 := by omega
      rw [hdiv, List.range_succ, List.map_append]
      have e1 : (List.range (st.results.length / 25)).map
          (fun i => (st.results ++ [r]).take (25 * (i + 1))) = st.checkpoints := by
        rw [h]
        apply List.map_congr_left
        intro i hi
        have hi' : i < st.results.length / 25 := List.mem_range.mp hi
        have hle : 25 * (i + 1) ≤ st.results.length := by omega
        exact List.take_append_of_le_length hle
      rw [e1]
      have e2 : (st.results ++ [r]).take (25 * (st.results.length / 25 + 1))
          = st.results ++ [r] := by
        have h25 : 25 * (st.results.length / 25 + 1) = st.results.length + 1 := by omega
        rw [h25, ← hlen, List.take_length]
      simp only [List.map_cons, List.map_nil]
      rw [e2]
    · rw [if_neg hmod]
      rw [hlen] at hmod
      rw [hlen]
      have hdiv : (st.results.length + 1) / 25 = st.results.length / 25 := by omega
      rw [hdiv, h]
      apply List.map_congr_left
      intro i hi
      have hi' : i < st.results.length / 25 := List.mem_range.mp hi
      have hle : 25 * (i + 1) ≤ st.results.length := by omega
      exact (List.take_append_of_le_length hle).symm

/-- The checkpoint invariant holds of the whole run. -/
theorem runLoop_cps (outcomes : List TaskOutcome) :
    (runLoop outcomes).checkpoints
      = (List.range ((runLoop outcomes).results.length / 25)).map
          (fun i => (runLoop outcomes).results.take (25 * (i + 1))) := by
  have key : ∀ (os : List TaskOutcome) (st : LoopState),
      st.checkpoints = (List.range (st.results.length / 25)).map
          (fun i => st.results.take (25 * (i + 1))) →
      (os.foldl stepLoop st).checkpoints
        = (List.range ((os.foldl stepLoop st).results.length / 25)).map
            (fun i => (os.foldl stepLoop st).results.take (25 * (i + 1))) := by
    intro os
    induction os with
    | nil => intro st h; exact h
    | cons o os ih => intro st h; exact ih _ (stepLoop_cps st o h)
  exact key outcomes { results := [], checkpoints := [] } (by simp)

/-- The accumulated result list is exactly the delivered (non-fault) task
results, in completion order. -/
theorem runLoop_results (outcomes : List TaskOutcome) :
    (runLoop outcomes).results = outcomes.filterMap okOf := by
  have key : ∀ (os : List TaskOutcome) (st : LoopState),
      (os.foldl stepLoop st).results = st.results ++ os.filterMap okOf := by
    intro os
    induction os with
    | nil => intro st; simp
    | cons o os ih =>
      intro st
      cases o with
      | fault m => simpa [stepLoop, okOf] using ih st
      | ok r =>
        rw [List.foldl_cons, ih]
        show (st.results ++ [r]) ++ os.filterMap okOf = st.results ++ (TaskOutcome.ok r :: os).filterMap okOf
        simp [okOf]
  simpa using key outcomes { results := [], checkpoints := [] }

/-- C4: every checkpoint snapshot is the entire accumulated result list at
the moment its record count reached a multiple of 25: the checkpoints are
exactly the takes of length 25·(i+1) of the final result list; every
checkpoint has a positive record count divisible by 25, contains only
accumulated results, and record counts strictly increase from each
checkpoint to the next. -/
theorem claim_C4 (outcomes : List TaskOutcome) :
    (runLoop outcomes).checkpoints
      = (List.range ((runLoop outcomes).results.length / 25)).map
          (fun i => (runLoop outcomes).results.take (25 * (i + 1))) ∧
    (∀ c ∈ (runLoop outcomes).checkpoints,
      c.length % 25 = 0 ∧ 0 < c.length ∧ ∀ x ∈ c, x ∈ (runLoop outcomes).results) ∧
    List.Chain' (fun a b => a.length < b.length) (runLoop outcomes).checkpoints := by
  have hc := runLoop_cps outcomes
  refine ⟨hc, ?_, ?_⟩
  · intro c hcmem
    rw [hc] at hcmem
    rcases List.mem_map.mp hcmem with ⟨i, hi, rfl⟩
    have hi' : i < (runLoop outcomes).results.length / 25 := List.mem_range.mp hi
    have hlen : ((runLoop outcomes).results.take (25 * (i + 1))).length = 25 * (i + 1) := by
      rw [List.length_take]; omega
    exact ⟨by rw [hlen]; omega, by rw [hlen]; omega,
           fun x hx => (List.take_sublist _ _).subset hx⟩
  · rw [hc]
    apply List.Pairwise.chain'
    rw [List.pairwise_map]
    refine List.Pairwise.imp_of_mem ?_ (List.pairwise_lt_range _)
    intro i j hi hj hij
    have hi' : i < (runLoop outcomes).results.length / 25 := List.mem_range.mp hi
    have hj' : j < (runLoop outcomes).results.length / 25 := List.mem_range.mp hj
    have l1 : ((runLoop outcomes).results.take (25 * (i + 1))).length = 25 * (i + 1) := by
      rw [List.length_take]; omega
    have l2 : ((runLoop outcomes).results.take (25 * (j + 1))).length = 25 * (j + 1) := by
      rw [List.length_take]; omega
    rw [l1, l2]
    omega

/-- C4 witness: a run of 25 delivered results writes one checkpoint holding
all 25 accumulated records. -/
theorem claim_C4_witness :
    (List.replicate 25 exRec2).length % 25 = 0 ∧ 0 < (List.replicate 25 exRec2).length ∧
    ∀ x ∈ List.replicate 25 exRec2,
      x ∈ (runLoop (List.replicate 25 (TaskOutcome.ok exRec2))).results :=
  (claim_C4 (List.replicate 25 (TaskOutcome.ok exRec2))).2.1
    (List.replicate 25 exRec2) (by decide)

/-- Dropping one element from a filterMap strictly shrinks it below the
source length. -/
theorem length_filterMap_lt {α β : Type} (f : α → Option β) {l : List α} {a : α}
    (ha : a ∈ l) (hf : f a = none) : (l.filterMap f).length < l.length := by
  induction l with
  | nil => cases ha
  | cons b l ih =>
    rw [List.filterMap_cons]
    rcases List.mem_cons.mp ha with rfl | ha'
    · rw [hf]
      exact Nat.lt_succ_of_le (List.length_filterMap_le f l)
    · cases hfb : f b with
      | none => exact Nat.lt_succ_of_lt (ih ha')
      | some y => simpa using Nat.succ_lt_succ (ih ha')

/-- C6 counterexample: with a two-person roster in which one task faults and
the other delivers two events, the expanded output has 2 rows — NOT strictly
below the roster count of 2, refuting the claimed strict bound on the output
record count. -/
theorem claim_C6_counterexample :
    ¬ ((expandEvents (runLoop [TaskOutcome.fault "boom", TaskOutcome.ok exRec2]).results).length
        < [TaskOutcome.fault "boom", TaskOutcome.ok exRec2].length) := by
  decide

/-- C6 amended: a task whose fault escapes the per-person containment
contributes nothing — the accumulated results are exactly the delivered
ones, so with at least one faulting task the per-person result count is
strictly below the roster count; every output row and every checkpoint
record stems from a delivered (non-fault) task, so the faulted person
appears nowhere.  (The expanded row count, by contrast, may reach or exceed
the roster count when surviving persons carry several events.) -/
theorem claim_C6_amended (outcomes : List TaskOutcome) :
    (runLoop outcomes).results = outcomes.filterMap okOf ∧
    ((∃ msg, TaskOutcome.fault msg ∈ outcomes) →
      (runLoop outcomes).results.length < outcomes.length) ∧
    (∀ row ∈ expandEvents (runLoop outcomes).results,
      ∃ r, TaskOutcome.ok r ∈ outcomes ∧ row.base = r.base) ∧
    (∀ c ∈ (runLoop outcomes).checkpoints, ∀ x ∈ c, TaskOutcome.ok x ∈ outcomes) := by
  have hres := runLoop_results outcomes
  have okmem : ∀ {r : ResultRecord}, r ∈ (runLoop outcomes).results →
      TaskOutcome.ok r ∈ outcomes := by
    intro r hr
    rw [hres] at hr
    rcases List.mem_filterMap.mp hr with ⟨o, ho, hoo⟩
    cases o with
    | ok r' =>
      cases hoo with
      | refl => exact ho
    | fault m => exact absurd hoo (by simp [okOf])
  refine ⟨hres, ?_, ?_, ?_⟩
  · rintro ⟨msg, hmem⟩
    rw [hres]
    exact length_filterMap_lt okOf hmem rfl
  · intro row hrow
    rcases List.mem_flatMap.mp hrow with ⟨r, hr, hrow'⟩
    exact ⟨r, okmem hr, personRows_base hrow'⟩
  · intro c hc x hx
    have := runLoop_cps outcomes
    rw [this] at hc
    rcases List.mem_map.mp hc with ⟨i, _, rfl⟩
    exact okmem ((List.take_sublist _ _).subset hx)

/-- C6 witness: a roster of one faulting task yields an empty result list,
strictly below the roster count. -/
theorem claim_C6_witness :
    (runLoop [TaskOutcome.fault "x"]).results.length < [TaskOutcome.fault "x"].length :=
  (claim_C6_amended [TaskOutcome.fault "x"]).2.1 ⟨"x", by decide⟩

/-- After a whitespace run has emitted its space, the next emitted character
is not whitespace. -/
theorem collapseWs_head_not_space :
    ∀ (l : List Char) (c : Char), (collapseWs l true).head? = some c → isSpace c = false := by
  intro l
  induction l with
  | nil => intro c h; simp [collapseWs] at h
  | cons a rest ih =>
    intro c h
    cases hsp : isSpace a with
    | true =>
      rw [show collapseWs (a :: rest) true = collapseWs rest true from by
        simp [collapseWs, hsp]] at h
      exact ih c h
    | false =>
      rw [show collapseWs (a :: rest) true = a :: collapseWs rest false from by
        simp [collapseWs, hsp]] at h
      simp only [List.head?_cons, Option.some.injEq] at h
      rw [← h]
      exact hsp

/-- The collapsed text never contains two adjacent whitespace characters. -/
theorem collapseWs_chain' :
    ∀ (l : List Char) (prev : Bool),
      List.Chain' (fun a b => ¬(isSpace a = true ∧ isSpace b = true)) (collapseWs l prev) := by
  intro l
  induction l with
  | nil => intro prev; simp [collapseWs]
  | cons a rest ih =>
    intro prev
    cases hsp : isSpace a with
    | true =>
      cases prev with
      | true =>
        rw [show collapseWs (a :: rest) true = collapseWs rest true from by
          simp [collapseWs, hsp]]
        exact ih true
      | false =>
        rw [show collapseWs (a :: rest) false = ' ' :: collapseWs rest true from by
          simp [collapseWs, hsp]]
        refine List.chain'_cons'.mpr ⟨?_, ih true⟩
        intro y hy hcon
        have hns : isSpace y = false :=
          collapseWs_head_not_space rest y (Option.mem_def.mp hy)
        rw [hns] at hcon
        exact absurd hcon.2 (by simp)
    | false =>
      rw [show collapseWs (a :: rest) prev = a :: collapseWs rest false from by
        simp [collapseWs, hsp]]
      refine List.chain'_cons'.mpr ⟨?_, ih false⟩
      intro y hy hcon
      rw [hsp] at hcon
      exact absurd hcon.1 (by simp)

/-- The no-two-adjacent-whitespace property is stable under reversal. -/
theorem chain_noTwo_reverse {l : List Char}
    (h : List.Chain' (fun a b => ¬(isSpace a = true ∧ isSpace b = true)) l) :
    List.Chain' (fun a b => ¬(isSpace a = true ∧ isSpace b = true)) l.reverse := by
  rw [List.chain'_reverse]
  exact h.imp (fun a b hab hc => hab ⟨hc.2, hc.1⟩)

/-- Cleaned text never contains two adjacent whitespace characters. -/
theorem clean_text_chain' (l : List Char) :
    List.Chain' (fun a b => ¬(isSpace a = true ∧ isSpace b = true)) (clean_text l) := by
  unfold clean_text
  split
  · simp
  · apply List.Chain'.take
    unfold stripEnds
    exact chain_noTwo_reverse
      ((chain_noTwo_reverse
        ((collapseWs_chain' (removeCitations l) false).suffix
          (List.dropWhile_suffix isSpace))).suffix
        (List.dropWhile_suffix isSpace))

/-- C5 counterexample: removing nested citation markers can CREATE a new
citation marker: `clean_text` on "[1[2]3]" removes the inner "[2]" and
leaves "[13]", which is itself a citation-marker substring — refuting the
claim that no cleaned string contains one. -/
theorem claim_C5_counterexample :
    containsCitation (clean_text "[1[2]3]".data) = true := by decide

/-- C5 amended: every cleaned string has no two adjacent whitespace
characters and at most 2000 characters; every emitted event content and
every stored summary has at most 3000 characters.  (Citation markers present
in the input are removed in one left-to-right pass, but — as the
counterexample shows — removal of a nested marker can create a fresh marker
substring in the output, so marker-freedom does not hold in general.) -/
theorem claim_C5_amended :
    (∀ l : List Char,
      List.Chain' (fun a b => ¬(isSpace a = true ∧ isSpace b = true)) (clean_text l) ∧
      (clean_text l).length ≤ 2000) ∧
    (∀ (doc : List Element) (e : LifeEvent), e ∈ extract_events doc →
      e.content.length ≤ 3000) ∧
    (∀ (name : String) (o : FetchOutcome),
      (summaryOf (get_person_data name o)).length ≤ 3000) := by
  refine ⟨fun l => ⟨clean_text_chain' l, ?_⟩, ?_, ?_⟩
  · unfold clean_text
    split
    · simp
    · rw [List.length_take]
      exact Nat.min_le_left _ _
  · intro doc e he
    rcases List.mem_filterMap.mp he with ⟨s, _, hs⟩
    exact categoryEvent_content_le hs
  · intro name o
    cases o with
    | resolveFault m => simp [get_person_data, summaryOf]
    | notFound => simp [get_person_data, summaryOf]
    | fetchFault m => simp [get_person_data, summaryOf]
    | ok s soup =>
      show (s.take 3000).length ≤ 3000
      rw [List.length_take]
      exact Nat.min_le_left _ _

/-- C5 witness: the amended bound applied to a concrete extracted event. -/
theorem claim_C5_witness :
    ({ type := "Early Life", content := "x".data } : LifeEvent).content.length ≤ 3000 :=
  claim_C5_amended.2.1
    [{ tag := "h2", text := "early life".data }, { tag := "p", text := "x".data }]
    { type := "Early Life", content := "x".data } (by decide)

/-- Every pair in an updated dict is an old pair or the inserted one. -/
theorem insertDict_mem {d : List (List Char × List Char)} {k v : List Char}
    {q : List Char × List Char} (h : q ∈ insertDict d k v) : q ∈ d ∨ q = (k, v) := by
  unfold insertDict at h
  split at h
  · rcases List.mem_map.mp h with ⟨p, hp, hq⟩
    by_cases hpk : p.1 = k
    · rw [if_pos hpk] at hq
      right; exact hq.symm
    · rw [if_neg hpk] at hq
      left; rw [← hq]; exact hp
  · rcases List.mem_append.mp h with h1 | h2
    · left; exact h1
    · right; exact List.mem_singleton.mp h2

/-- Overwriting the value at an existing key makes lookup at that key yield
the new value. -/
theorem find_map_overwrite_self :
    ∀ (d : List (List Char × List Char)) (k v : List Char),
      k ∈ d.map (fun p => p.1) →
      lookupD (d.map (fun p => if p.1 = k then (k, v) else p)) k = some v := by
  intro d k v h
  induction d with
  | nil => simp at h
  | cons p d ih =>
    by_cases hpk : p.1 = k
    · rw [List.map_cons, if_pos hpk]
      unfold lookupD
      rw [List.find?_cons_of_pos _ (by simp)]
      rfl
    · rw [List.map_cons, if_neg hpk]
      unfold lookupD
      rw [List.find?_cons_of_neg _ (by simp [hpk])]
      rw [List.map_cons] at h
      rcases List.mem_cons.mp h with h1 | h2
      · exact absurd h1.symm hpk
      · exact ih h2

/-- Overwriting the value at one key leaves lookups at other keys unchanged. -/
theorem find_map_overwrite_other :
    ∀ (d : List (List Char × List Char)) (k v k' : List Char), k' ≠ k →
      lookupD (d.map (fun p => if p.1 = k then (k, v) else p)) k' = lookupD d k' := by
  intro d k v k' hne
  induction d with
  | nil => rfl
  | cons p d ih =>
    by_cases hpk : p.1 = k
    · rw [List.map_cons, if_pos hpk]
      unfold lookupD at ih ⊢
      rw [List.find?_cons_of_neg _ (by simp; exact fun hh => hne hh.symm),
          List.find?_cons_of_neg _ (by simp [hpk]; exact fun hh => hne hh.symm)]
      exact ih
    · rw [List.map_cons, if_neg hpk]
      unfold lookupD at ih ⊢
      by_cases hpk' : p.1 = k'
      · rw [List.find?_cons_of_pos _ (by simp [hpk']),
            List.find?_cons_of_pos _ (by simp [hpk'])]
      · rw [List.find?_cons_of_neg _ (by simp [hpk']),
            List.find?_cons_of_neg _ (by simp [hpk'])]
        exact ih

/-- Dict-insert lookup: the inserted key now maps to the inserted value,
every other key is untouched. -/
theorem insertDict_lookup (d : List (List Char × List Char)) (k v k' : List Char) :
    lookupD (insertDict d k v) k' = if k' = k then some v else lookupD d k' := by
  unfold insertDict
  split
  · rename_i hany
    have hk : k ∈ d.map (fun p => p.1) := by
      rcases List.any_eq_true.mp hany with ⟨p, hp, hpk⟩
      exact List.mem_map.mpr ⟨p, hp, of_decide_eq_true hpk⟩
    by_cases hk' : k' = k
    · rw [if_pos hk', hk']
      exact find_map_overwrite_self d k v hk
    · rw [if_neg hk']
      exact find_map_overwrite_other d k v k' hk'
  · rename_i hany
    unfold lookupD
    rw [List.find?_append]
    by_cases hk' : k' = k
    · rw [if_pos hk']
      have hnone : d.find? (fun p => decide (p.1 = k')) = none := by
        rw [List.find?_eq_none]
        intro p hp hpk
        apply hany
        exact List.any_eq_true.mpr ⟨p, hp, by rw [hk'] at hpk; exact hpk⟩
      rw [hnone, Option.none_or, List.find?_cons_of_pos _ (by simp [hk'])]
      rfl
    · rw [if_neg hk']
      have hnone2 : [(k, v)].find? (fun p => decide (p.1 = k')) = none := by
        have : ¬ (k = k') := fun hh => hk' hh.symm
        simp [this]
      rw [hnone2]
      simp

/-- The key list of an updated dict: unchanged by an overwrite, extended by a
fresh key. -/
theorem insertDict_keys (d : List (List Char × List Char)) (k v : List Char) :
    (insertDict d k v).map (fun p => p.1)
      = if d.any (fun p => decide (p.1 = k)) then d.map (fun p => p.1)
        else d.map (fun p => p.1) ++ [k] := by
  unfold insertDict
  split <;> rename_i hany
  · rw [List.map_map]
    apply List.map_congr_left
    intro p hp
    by_cases hpk : p.1 = k
    · simp [Function.comp, hpk]
    · simp [Function.comp, hpk]
  · rw [List.map_append]
    rfl

/-- Key membership after a dict insert. -/
theorem insertDict_keys_mem (d : List (List Char × List Char)) (k v k' : List Char) :
    (k' ∈ (insertDict d k v).map (fun p => p.1))
      ↔ (k' ∈ d.map (fun p => p.1) ∨ k' = k) := by
  rw [insertDict_keys]
  split <;> rename_i hany
  · have hk : k ∈ d.map (fun p => p.1) := by
      rcases List.any_eq_true.mp hany with ⟨p, hp, hpk⟩
      exact List.mem_map.mpr ⟨p, hp, of_decide_eq_true hpk⟩
    constructor
    · exact Or.inl
    · rintro (h | rfl)
      · exact h
      · exact hk
  · rw [List.mem_append, List.mem_singleton]

/-- A dict insert keeps the key list duplicate-free. -/
theorem insertDict_keys_nodup (d : List (List Char × List Char)) (k v : List Char)
    (h : (d.map (fun p => p.1)).Nodup) :
    ((insertDict d k v).map (fun p => p.1)).Nodup := by
  rw [insertDict_keys]
  split <;> rename_i hany
  · exact h
  · have hk : k ∉ d.map (fun p => p.1) := by
      intro hmem
      apply hany
      rcases List.mem_map.mp hmem with ⟨p, hp, hpk⟩
      exact List.any_eq_true.mpr ⟨p, hp, decide_eq_true hpk⟩
    simp [List.nodup_append, h, hk]

/-- Folding a pair list into a dict: lookup returns the value of the LAST
pair carrying the key, else falls back to the initial dict. -/
theorem dictFold_lookup :
    ∀ (ps d : List (List Char × List Char)) (k : List Char),
      lookupD (ps.foldl (fun acc kv => insertDict acc kv.1 kv.2) d) k
        = ((ps.reverse.find? (fun kv => decide (kv.1 = k))).map (fun kv => kv.2)).or
            (lookupD d k) := by
  intro ps
  induction ps with
  | nil => intro d k; simp
  | cons kv ps ih =>
    intro d k
    rw [List.foldl_cons, ih, List.reverse_cons, List.find?_append]
    cases hfind : ps.reverse.find? (fun kv => decide (kv.1 = k)) with
    | some x => simp [hfind]
    | none =>
      simp only [hfind, Option.none_or]
      rw [insertDict_lookup]
      by_cases hk : k = kv.1
      · rw [if_pos hk, List.find?_cons_of_pos _ (by simp [hk])]
        rfl
      · rw [if_neg hk]
        have hn : [kv].find? (fun kv => decide (kv.1 = k)) = none := by
          have : ¬ (kv.1 = k) := fun hh => hk hh.symm
          simp [this]
        rw [hn]

/-- Key membership after folding a pair list into a dict. -/
theorem dictFold_keys_mem :
    ∀ (ps d : List (List Char × List Char)) (k' : List Char),
      (k' ∈ ((ps.foldl (fun acc kv => insertDict acc kv.1 kv.2) d).map (fun p => p.1)))
        ↔ (k' ∈ d.map (fun p => p.1) ∨ k' ∈ ps.map (fun kv => kv.1)) := by
  intro ps
  induction ps with
  | nil => intro d k'; simp
  | cons kv ps ih =>
    intro d k'
    rw [List.foldl_cons, ih, insertDict_keys_mem, List.map_cons, List.mem_cons]
    tauto

/-- Folding a pair list into a dict keeps the key list duplicate-free. -/
theorem dictFold_keys_nodup :
    ∀ (ps d : List (List Char × List Char)),
      (d.map (fun p => p.1)).Nodup →
      ((ps.foldl (fun acc kv => insertDict acc kv.1 kv.2) d).map (fun p => p.1)).Nodup := by
  intro ps
  induction ps with
  | nil => intro d h; exact h
  | cons kv ps ih =>
    intro d h
    rw [List.foldl_cons]
    exact ih _ (insertDict_keys_nodup d kv.1 kv.2 h)

/-- The dict built from a pair list has one entry per distinct key. -/
theorem dictFold_length (ps : List (List Char × List Char)) :
    (ps.foldl (fun acc kv => insertDict acc kv.1 kv.2) []).length
      = ((ps.map (fun kv => kv.1)).toFinset).card := by
  have hnd : ((ps.foldl (fun acc kv => insertDict acc kv.1 kv.2) []).map
      (fun p => p.1)).Nodup := dictFold_keys_nodup ps [] (by simp)
  rw [show (ps.foldl (fun acc kv => insertDict acc kv.1 kv.2) []).length
      = ((ps.foldl (fun acc kv => insertDict acc kv.1 kv.2) []).map
          (fun p => p.1)).length from (List.length_map _ _).symm,
      ← List.toFinset_card_of_nodup hnd]
  congr 1
  apply Finset.ext
  intro x
  rw [List.mem_toFinset, List.mem_toFinset, dictFold_keys_mem]
  simp

/-- Every pair in the folded dict comes from the pair list (or the start). -/
theorem dictFold_subset :
    ∀ (ps d : List (List Char × List Char)) (q : List Char × List Char),
      q ∈ ps.foldl (fun acc kv => insertDict acc kv.1 kv.2) d → q ∈ d ∨ q ∈ ps := by
  intro ps
  induction ps with
  | nil => intro d q h; exact Or.inl h
  | cons kv ps ih =>
    intro d q h
    rw [List.foldl_cons] at h
    rcases ih _ q h with h1 | h2
    · rcases insertDict_mem h1 with h3 | h4
      · exact Or.inl h3
      · right
        rw [h4]
        exact List.mem_cons_self _ _
    · right
      exact List.mem_cons_of_mem _ h2

/-- The infobox row loop is the pair-list fold of the qualifying rows. -/
theorem foldl_infobox_eq (t : List TableRow) :
    ∀ d, t.foldl infoboxStep d
      = (panelPairs t).foldl (fun acc kv => insertDict acc kv.1 kv.2) d := by
  induction t with
  | nil => intro d; rfl
  | cons row t ih =>
    intro d
    rw [List.foldl_cons]
    cases hrp : rowPair row with
    | none =>
      rw [show infoboxStep d row = d from by simp [infoboxStep, hrp]]
      unfold panelPairs
      rw [List.filterMap_cons, hrp]
      exact ih d
    | some kv =>
      rw [show infoboxStep d row = insertDict d kv.1 kv.2 from by simp [infoboxStep, hrp]]
      unfold panelPairs
      rw [List.filterMap_cons, hrp, List.foldl_cons]
      exact ih _

/-- A qualifying row decomposes: both cells present, both cleaned texts
non-empty, and the produced pair is exactly the cleaned pair. -/
theorem rowPair_some {row : TableRow} {q : List Char × List Char}
    (h : rowPair row = some q) :
    ∃ a b, row.th = some a ∧ row.td = some b ∧
      q = (clean_text a, clean_text b) ∧ clean_text a ≠ [] ∧ clean_text b ≠ [] := by
  obtain ⟨oth, otd⟩ := row
  cases oth with
  | none =>
    have hz : rowPair { th := none, td := otd } = none := by cases otd <;> rfl
    rw [hz] at h
    exact absurd h (by simp)
  | some a =>
    cases otd with
    | none => exact absurd h (by simp [rowPair])
    | some b =>
      have hrw : rowPair { th := some a, td := some b }
          = if clean_text a ≠ [] ∧ clean_text b ≠ [] then
              some (clean_text a, clean_text b)
            else none := rfl
      rw [hrw] at h
      split at h
      · rename_i hcond
        injection h with h
        exact ⟨a, b, rfl, rfl, h.symm, hcond.1, hcond.2⟩
      · exact absurd h (by simp)

/-- C8: profile-panel extraction uses only the first infobox table ([] when
none exists); every emitted pair stems from a row of that table having both
cells, with both texts cleaned and non-empty. -/
theorem claim_C8 :
    extractInfobox [] = [] ∧
    (∀ (t : List TableRow) (rest : List (List TableRow)),
      extractInfobox (t :: rest) = extractInfobox [t]) ∧
    (∀ (t : List TableRow) (rest : List (List TableRow)) (q : List Char × List Char),
      q ∈ extractInfobox (t :: rest) →
      ∃ row ∈ t, ∃ a b, row.th = some a ∧ row.td = some b ∧
        q = (clean_text a, clean_text b) ∧ clean_text a ≠ [] ∧ clean_text b ≠ []) := by
  refine ⟨rfl, fun t rest => rfl, ?_⟩
  intro t rest q hq
  have hq' : q ∈ (panelPairs t).foldl (fun acc kv => insertDict acc kv.1 kv.2) [] := by
    rw [← foldl_infobox_eq]
    exact hq
  rcases dictFold_subset (panelPairs t) [] q hq' with h | h
  · exact absurd h (by simp)
  · rcases List.mem_filterMap.mp h with ⟨row, hrow, hrp⟩
    rcases rowPair_some hrp with ⟨a, b, hth, htd, hq2, ha, hb⟩
    exact ⟨row, hrow, a, b, hth, htd, hq2, ha, hb⟩

/-- C8 witness: the membership clause applied to the sample table. -/
theorem claim_C8_witness :
    ∃ row ∈ exTableDup, ∃ a b, row.th = some a ∧ row.td = some b ∧
      (("Born".data, "1816".data) : List Char × List Char)
        = (clean_text a, clean_text b) ∧
      clean_text a ≠ [] ∧ clean_text b ≠ [] :=
  claim_C8.2.2 exTableDup [] ("Born".data, "1816".data) (by decide)

/-- C10: with duplicate cleaned labels among the qualifying rows, the panel
maps the label to the cleaned value of the LAST such row, and the panel's
entry count is the number of distinct cleaned labels among the qualifying
rows (not the row count). -/
theorem claim_C10 (t : List TableRow) (rest : List (List TableRow))
    (k v₁ v₂ : List Char) (l₁ l₂ l₃ : List (List Char × List Char))
    (hsplit : panelPairs t = l₁ ++ (k, v₁) :: (l₂ ++ (k, v₂) :: l₃))
    (hlast : ∀ q ∈ l₃, q.1 ≠ k) :
    lookupD (extractInfobox (t :: rest)) k = some v₂ ∧
    (extractInfobox (t :: rest)).length
      = ((panelPairs t).map (fun q => q.1)).toFinset.card := by
  have hfold : extractInfobox (t :: rest)
      = (panelPairs t).foldl (fun acc kv => insertDict acc kv.1 kv.2) [] :=
    foldl_infobox_eq t []
  constructor
  · rw [hfold, dictFold_lookup, hsplit]
    have hrev : (l₁ ++ (k, v₁) :: (l₂ ++ (k, v₂) :: l₃)).reverse
        = l₃.reverse ++ ((k, v₂) :: (l₂.reverse ++ ((k, v₁) :: l₁.reverse))) := by
      simp
    rw [hrev, List.find?_append]
    have hno : l₃.reverse.find? (fun q => decide (q.1 = k)) = none := by
      rw [List.find?_eq_none]
      intro q hq
      simp only [decide_eq_true_eq]
      exact hlast q (List.mem_reverse.mp hq)
    rw [hno, Option.none_or, List.find?_cons_of_pos _ (by simp)]
    rfl
  · rw [hfold, dictFold_length, hsplit]

/-- C10 witness: the sample table's two rows both clean to label `Born`; the
panel holds the single entry `Born ↦ 1816` (the later row's value). -/
theorem claim_C10_witness :
    lookupD (extractInfobox [exTableDup]) "Born".data = some "1816".data ∧
    (extractInfobox [exTableDup]).length
      = ((panelPairs exTableDup).map (fun q => q.1)).toFinset.card :=
  claim_C10 exTableDup [] "Born".data "1815".data "1816".data [] [] []
    (by decide) (by simp)
